import Mathlib

/-!
Verification of the llm-mcp-server repository: a shallow embedding of the
OAuth client provider (InMemoryOAuthClientProvider.ts), the auth callback
rendezvous (authCallbackServer.ts), the MCP client routing table
(mcpClient.ts) and the inference gateway (llamacppServer.ts), together
with theorems settling the specification claims about them.

JavaScript strings are modelled as Lean String where only equality
matters, and as List Char where the claims need structural reasoning
(prefix stripping, newline escaping). JavaScript numbers are modelled as
Rat. Nullable or possibly-undefined values are modelled as Option, and
JavaScript truthiness tests are translated explicitly at each use site
(0, empty string, null, undefined and false are falsy).
-/

/-! ## OAuth client provider (src/mcp/InMemoryOAuthClientProvider.ts)

The provider keeps a token set, a single-slot PKCE code verifier and a
handle to the most recently armed refresh timeout. The Node.js runtime
keeps every armed, uncleared timeout alive; the model makes that runtime
set explicit as `pendingTimers`, with a fresh id per setTimeout call.
Arming appends to `pendingTimers`; only clearTimeout (modelled by
`clearRefreshTimer`, which the constructor wires to the abort signal)
removes an entry, and it can only name the id currently stored in
`_timer`. -/

structure OAuthTokens where
  access_token : String
  expires_in : Option Int
  refresh_token : Option String
  deriving DecidableEq, Repr

structure TimerRec where
  id : Nat
  delaySeconds : Int
  refreshToken : String
  deriving DecidableEq, Repr

structure ProviderState where
  _tokens : Option OAuthTokens
  _codeVerifier : Option String
  _timer : Option Nat
  pendingTimers : List TimerRec
  nextTimerId : Nat
  deriving DecidableEq, Repr

def ProviderState.init : ProviderState :=
  { _tokens := none, _codeVerifier := none, _timer := none,
    pendingTimers := [], nextTimerId := 0 }

/-- Model of `_setTokenRefreshTimer(expireIn, refreshToken)`: computes
`refreshIn = expireIn - 10` (no clamping appears in the source) and stores
the handle of a newly armed timeout in `_timer`, overwriting whatever
handle was there before without clearing it. -/
def setTokenRefreshTimer (st : ProviderState) (expireIn : Int) (refreshToken : String) :
    ProviderState :=
  let refreshIn := expireIn - 10
  { st with
    _timer := some st.nextTimerId,
    pendingTimers := st.pendingTimers ++ [⟨st.nextTimerId, refreshIn, refreshToken⟩],
    nextTimerId := st.nextTimerId + 1 }

/-- Model of `saveTokens(tokens)`: stores the token set and, when
`tokens.expires_in && tokens.refresh_token` is truthy, arms a refresh
timer. -/
def saveTokens (st : ProviderState) (tokens : OAuthTokens) : ProviderState :=
  let st1 := { st with _tokens := some tokens }
  match tokens.expires_in, tokens.refresh_token with
  | some e, some r => if e != 0 && r != "" then setTokenRefreshTimer st1 e r else st1
  | _, _ => st1

/-- Model of `_clearRefreshTimer()`: clears the timeout whose handle is
currently stored in `_timer`, if any. Handles that were overwritten by a
later `_setTokenRefreshTimer` call are unreachable from here. -/
def clearRefreshTimer (st : ProviderState) : ProviderState :=
  match st._timer with
  | some id =>
    { st with
      _timer := none
      pendingTimers := st.pendingTimers.filter (fun t => t.id != id) }
  | none => st

/-- Model of `saveCodeVerifier(codeVerifier)`. -/
def saveCodeVerifier (st : ProviderState) (v : String) : ProviderState :=
  { st with _codeVerifier := some v }

/-- Model of `codeVerifier()`: throws when `!this._codeVerifier` is truthy,
which holds both for an unset slot and for the (falsy) empty string. -/
def codeVerifier (st : ProviderState) : Except String String :=
  match st._codeVerifier with
  | none => .error "No code verifier saved"
  | some v => if v = "" then .error "No code verifier saved" else .ok v

/-! ## Auth callback rendezvous (src/mcp/authCallbackServer.ts)

The server captures at most one authorization outcome in `_code` and
`_callbackError` and keeps a single notifier slot `_notifyCallbackCalled`,
modelled here as the id of the waiter whose promise executor last stored
its callbacks in the slot. Promises settle at most once; `settled`
records, append-only and first-wins per waiter id, the outcome delivered
to each waiter. A waiter id absent from `settled` is a promise that is
still pending. -/

inductive WaiterOutcome where
  | resolved (code : String)
  | rejected (err : String)
  deriving DecidableEq, Repr

structure HttpResp where
  status : Nat
  body : String
  deriving DecidableEq, Repr

structure CallbackState where
  _code : Option String
  _callbackError : Option String
  _notify : Option Nat
  nextWaiter : Nat
  settled : List (Nat × WaiterOutcome)
  deriving DecidableEq, Repr

def CallbackState.init : CallbackState :=
  { _code := none, _callbackError := none, _notify := none,
    nextWaiter := 0, settled := [] }

/-- Truthiness of a JavaScript `string | null | undefined` value. -/
def truthyOptStr : Option String → Bool
  | none => false
  | some s => s != ""

/-- Delivery of an outcome to a waiter: a promise settles only once, so a
second delivery to the same waiter id is a no-op. -/
def settle (s : CallbackState) (w : Nat) (o : WaiterOutcome) : CallbackState :=
  if s.settled.any (fun p => p.1 == w) then s
  else { s with settled := s.settled ++ [(w, o)] }

/-- Model of `waitForAuthorizationCode()`: the promise executor resolves or
rejects immediately when an outcome was already captured, and then stores
its notifier in the single `_notifyCallbackCalled` slot unconditionally,
overwriting any notifier a previous call left there. Returns the fresh
waiter id together with the updated state. -/
def waitForAuthorizationCode (s : CallbackState) : Nat × CallbackState :=
  let w := s.nextWaiter
  let s1 := { s with nextWaiter := w + 1 }
  let s2 :=
    if truthyOptStr s1._code then settle s1 w (.resolved (s1._code.getD ""))
    else if truthyOptStr s1._callbackError then
      settle s1 w (.rejected (s1._callbackError.getD ""))
    else s1
  (w, { s2 with _notify := some w })

/-- Model of the `GET /callback` route: normalizes the query parameters
with `|| null`, answers the HTTP caller, stores the outcome in `_code` and
`_callbackError`, and fires the registered notifier if one is present. -/
def handleCallback (s : CallbackState) (codeQ errQ : Option String) :
    HttpResp × CallbackState :=
  let error0 : Option String := if truthyOptStr errQ then errQ else none
  let code : Option String := if truthyOptStr codeQ then codeQ else none
  let respError :=
    match error0 with
    | some e => (HttpResp.mk 400 ("Authorization failed: " ++ e), some e)
    | none =>
      match code with
      | some _ => (HttpResp.mk 200 "Authorization successful", none)
      | none => (HttpResp.mk 400 "No authorization code provided",
                 some "No authorization code provided")
  let s1 := { s with _code := code, _callbackError := respError.2 }
  let s2 :=
    match s1._notify with
    | some w =>
      match code with
      | some c => settle s1 w (.resolved c)
      | none =>
        match respError.2 with
        | some e => settle s1 w (.rejected e)
        | none => settle s1 w (.rejected "No authorization code nor error received")
    | none => s1
  (respError.1, s2)

/-! ## MCP client (src/mcp/mcpClient.ts)

The client keeps `clientMap`, an insertion-ordered map from client id to
the per-server session (modelled as the list of entries in configuration
order, each carrying the tool list its server would answer to a
tools/list request), and `functionMap`, the tool-name to session routing
table (modelled as an association list whose lookup returns the first
binding). `callTool` takes the network as an explicit oracle and returns
the protocol requests it issued. -/

def alist_lookup {α β : Type} [DecidableEq α] : List (α × β) → α → Option β
  | [], _ => none
  | (k, v) :: rest, key => if key = k then some v else alist_lookup rest key

def orElseO {β : Type} : Option β → Option β → Option β
  | some x, _ => some x
  | none, y => y

structure MCPTool where
  name : String
  description : String
  deriving DecidableEq, Repr

structure ClientEntry where
  clientId : String
  toolsResult : List MCPTool
  deriving DecidableEq, Repr

structure MCPState where
  clientMap : List ClientEntry
  functionMap : List (String × String)
  deriving DecidableEq, Repr

/-- Model of `listTool(clientId)`: looks the client up in `clientMap` and
returns the tools/list result of its server. -/
def listTool (st : MCPState) (clientId : String) : Except String (List MCPTool) :=
  match st.clientMap.find? (fun c => c.clientId == clientId) with
  | none => .error ("Client " ++ clientId ++ " not found")
  | some c => .ok c.toolsResult

/-- Model of the inner loop of `listAllTools()`: registers every tool of
one client in `functionMap`, skipping names that already have a binding. -/
def registerTools (fm : List (String × String)) (cid : String) :
    List MCPTool → List (String × String)
  | [] => fm
  | t :: ts =>
    registerTools
      (if (alist_lookup fm t.name).isSome then fm else fm ++ [(t.name, cid)]) cid ts

/-- Model of the outer loop of `listAllTools()`: per client in map order,
fetch its tools, append them to the result and register them. -/
def listAllToolsGo (st : MCPState) :
    List ClientEntry → List (String × String) → List MCPTool →
      Except String (List MCPTool × List (String × String))
  | [], fm, acc => .ok (acc, fm)
  | c :: rest, fm, acc =>
    match listTool st c.clientId with
    | .error e => .error e
    | .ok tools => listAllToolsGo st rest (registerTools fm c.clientId tools) (acc ++ tools)

/-- Model of `listAllTools()`. -/
def listAllTools (st : MCPState) : Except String (List MCPTool × MCPState) :=
  match listAllToolsGo st st.clientMap st.functionMap [] with
  | .error e => .error e
  | .ok (tools, fm) => .ok (tools, { st with functionMap := fm })

/-- Closed form of the routing table built by `listAllTools` over a client
list, used to state its specification. -/
def registerAll (fm : List (String × String)) : List ClientEntry → List (String × String)
  | [] => fm
  | c :: cs => registerAll (registerTools fm c.clientId c.toolsResult) cs

/-- Concatenation of every tool list of a client list, in order. -/
def toolConcat : List ClientEntry → List MCPTool
  | [] => []
  | c :: r => c.toolsResult ++ toolConcat r

structure ToolCallRequest where
  method : String
  toolName : String
  argNames : List String
  clientId : String
  deriving DecidableEq, Repr

structure CallToolResult where
  content : String
  deriving DecidableEq, Repr

/-- Model of `callTool(toolName, toolArgs)`: routing-table lookup, then a
tools/call protocol request against the owning session. The network is an
explicit oracle `net`; the middle component of the result lists the
protocol requests issued during the call. -/
def callTool (st : MCPState) (net : ToolCallRequest → Except String CallToolResult)
    (toolName : String) (toolArgs : List String) :
    Except String CallToolResult × List ToolCallRequest × MCPState :=
  match alist_lookup st.functionMap toolName with
  | none => (.error ("Tool " ++ toolName ++ " not found"), [], st)
  | some cid =>
    let req : ToolCallRequest := ⟨"tools/call", toolName, toolArgs, cid⟩
    (net req, [req], st)

/-! ## Inference gateway (src/llm/llamacppServer.ts)

Strings on the HTTP path (tokens, chunks, frames) are modelled as
List Char so that prefix stripping and newline escaping can be reasoned
about structurally. Request body fields are arbitrary JSON values; JSON
objects never reach the validated fields of the two endpoints, and the
only array-typed field is `stopText : string[]`, so `JsonVal.arr` carries
string elements. -/

def sentinel : List Char := ['[', 'B', 'R', 'E', 'A', 'K', ']']

/-- Model of `chunk.replace(/\n/g, "[BREAK]")` in the `onTextChunk`
callback of the `/infer` handler: a global single-character replace is the
per-character expansion of the chunk. -/
def encodeChunk : List Char → List Char
  | [] => []
  | c :: rest => (if c = '\n' then sentinel else [c]) ++ encodeChunk rest

/-- Consumer-side decoding described by the specification: replace each
occurrence of the sentinel, scanning left to right, by a newline. -/
def decodeChunk : List Char → List Char
  | '[' :: 'B' :: 'R' :: 'E' :: 'A' :: 'K' :: ']' :: rest => '\n' :: decodeChunk rest
  | c :: rest => c :: decodeChunk rest
  | [] => []

def startsWith7 : List Char → Bool
  | '[' :: 'B' :: 'R' :: 'E' :: 'A' :: 'K' :: ']' :: _ => true
  | _ => false

/-- Whether the sentinel occurs as a contiguous substring. -/
def containsSentinel : List Char → Bool
  | [] => false
  | c :: rest => startsWith7 (c :: rest) || containsSentinel rest

inductive JsonVal where
  | undef
  | null
  | bool (b : Bool)
  | num (q : Rat)
  | str (s : List Char)
  | arr (elems : List (List Char))
  deriving DecidableEq, Repr

/-- JavaScript truthiness of a JSON value (or of an absent field). -/
def JsonVal.truthy : JsonVal → Bool
  | .undef => false
  | .null => false
  | .bool b => b
  | .num q => q != 0
  | .str s => s != []
  | .arr _ => true

structure InferBody where
  prompt : JsonVal
  temperature : JsonVal
  stopText : JsonVal
  deriving DecidableEq, Repr

/-- Negation of `typeof temperature !== "number" || temperature < 0 ||
temperature > 2`. -/
def isNumInRange : JsonVal → Bool
  | .num q => decide (0 ≤ q) && decide (q ≤ 2)
  | _ => false

/-- Negation of `!Array.isArray(stopText) || stopText.length === 0`. -/
def isNonEmptyArray : JsonVal → Bool
  | .arr xs => xs.length != 0
  | _ => false

/-- Model of `#validateInferRequest`: mandatory truthy prompt, optional
temperature checked only when truthy, optional stopText checked only when
truthy; first failing check wins. -/
def validateInferRequest (b : InferBody) :
    Except (List Char) (JsonVal × JsonVal × JsonVal) :=
  if !b.prompt.truthy then .error "prompt required".data
  else if b.temperature.truthy && !isNumInRange b.temperature then
    .error "temperature must be a number between 0 and 2".data
  else if b.stopText.truthy && !isNonEmptyArray b.stopText then
    .error "stopText must be a non-empty array".data
  else .ok (b.prompt, b.temperature, b.stopText)

/-- Model of the credential extraction in the `auth` middleware:
`req.headers.authorization || ""`, then strip a leading Bearer prefix when
present, otherwise use the whole header value. -/
def extractToken (authHeader : Option (List Char)) : List Char :=
  let h := authHeader.getD []
  if "Bearer ".data <+: h then h.drop 7 else h

structure GatewayResponse where
  status : Nat
  frames : List (List Char)
  jsonBody : Option (List Char)
  deriving DecidableEq, Repr

/-- Outcome of the inference engine collaborator for one request: either
the full list of streamed text chunks, or the chunks streamed before a
failure together with the error message. -/
inductive EngineOutcome where
  | success (chunks : List (List Char))
  | failure (streamed : List (List Char)) (msg : List Char)
  deriving DecidableEq, Repr

def frameOfChunk (chunk : List Char) : List Char :=
  "data:".data ++ encodeChunk chunk ++ ['\n', '\n']

def eofFrame : List Char := "data:[EOF]".data ++ ['\n', '\n']

def errorFrame (msg : List Char) : List Char :=
  "event: error\ndata:".data ++ msg ++ ['\n', '\n']

/-- Model of the `POST /infer` pipeline, `auth` middleware included: 401
when the extracted token is not a key of `#tokenToUserMap`, then body
validation, then streaming. The Bool component records whether the
inference engine was invoked. -/
def handleInfer (table : List (List Char × Nat)) (authHeader : Option (List Char))
    (body : InferBody) (engine : EngineOutcome) : GatewayResponse × Bool :=
  let token := extractToken authHeader
  match alist_lookup table token with
  | none => (⟨401, [], some "Unauthorized".data⟩, false)
  | some _ =>
    match validateInferRequest body with
    | .error e => (⟨400, [], some e⟩, false)
    | .ok _ =>
      match engine with
      | .success chunks =>
        (⟨200, chunks.map frameOfChunk ++ [eofFrame], none⟩, true)
      | .failure streamed msg =>
        (⟨200, streamed.map frameOfChunk ++ [errorFrame msg], none⟩, true)

/-- Request body carrying only a prompt, as in `{"prompt":"hi"}`. -/
def promptOnlyBody (p : List Char) : InferBody :=
  { prompt := .str p, temperature := .undef, stopText := .undef }

/-! ## Helper lemmas -/

theorem saveTokens_keeps_codeVerifier (st : ProviderState) (tok : OAuthTokens) :
    (saveTokens st tok)._codeVerifier = st._codeVerifier := by
  obtain ⟨a, ei, rt⟩ := tok
  rcases ei with _ | e <;> rcases rt with _ | r <;>
    simp [saveTokens, setTokenRefreshTimer]
  split <;> rfl

theorem orElseO_some {β : Type} (x : β) (y : Option β) : orElseO (some x) y = some x := rfl

theorem orElseO_none {β : Type} (y : Option β) : orElseO none y = y := rfl

theorem alist_lookup_append {α β : Type} [DecidableEq α]
    (m : List (α × β)) (k : α) (v : β) (key : α) :
    alist_lookup (m ++ [(k, v)]) key =
      orElseO (alist_lookup m key) (if key = k then some v else none) := by
  induction m with
  | nil => simp [alist_lookup, orElseO]
  | cons p rest ih =>
    obtain ⟨k1, v1⟩ := p
    by_cases hk : key = k1
    · simp [alist_lookup, hk, orElseO]
    · simp [alist_lookup, hk, ih]

theorem registerTools_lookup (tools : List MCPTool) (fm : List (String × String))
    (cid key : String) :
    alist_lookup (registerTools fm cid tools) key =
      orElseO (alist_lookup fm key)
        (if tools.any (fun t => t.name == key) then some cid else none) := by
  induction tools generalizing fm with
  | nil => cases h : alist_lookup fm key <;> simp [registerTools, h, orElseO]
  | cons t ts ih =>
    rw [registerTools, ih]
    by_cases hname : (alist_lookup fm t.name).isSome
    · rw [if_pos hname]
      cases h : alist_lookup fm key
      · have hf : (t.name == key) = false := by
          by_contra hb
          have : t.name = key := by
            have hb2 : (t.name == key) = true := by
              cases hx : (t.name == key)
              · exact absurd hx hb
              · rfl
            exact beq_iff_eq.mp hb2
          rw [← this] at h
          rw [h] at hname
          simp at hname
        simp [List.any_cons, hf]
      · rfl
    · rw [if_neg hname]
      rw [alist_lookup_append]
      cases h : alist_lookup fm key
      · by_cases hkey : key = t.name
        · have ht : (t.name == key) = true := by simp [hkey]
          simp [hkey, List.any_cons, ht, orElseO]
        · have hf : (t.name == key) = false := by
            cases hx : (t.name == key)
            · rfl
            · exact absurd (beq_iff_eq.mp hx).symm hkey
          simp [hkey, List.any_cons, hf, orElseO]
      · rfl

theorem registerAll_lookup (cs : List ClientEntry) (fm : List (String × String))
    (key : String) :
    alist_lookup (registerAll fm cs) key =
      orElseO (alist_lookup fm key)
        ((cs.find? (fun c => c.toolsResult.any (fun t => t.name == key))).map
          (fun c => c.clientId)) := by
  induction cs generalizing fm with
  | nil => cases h : alist_lookup fm key <;> simp [registerAll, h, orElseO]
  | cons c cs ih =>
    rw [registerAll, ih, registerTools_lookup]
    rw [List.find?]
    cases hc : c.toolsResult.any (fun t => t.name == key)
    · simp only [hc, if_neg (by simp : ¬ (false = true))]
      cases h : alist_lookup fm key <;> rfl
    · simp only [hc, if_pos rfl, Option.map_some]
      cases h : alist_lookup fm key <;> rfl

theorem find_self_of_nodup (l : List ClientEntry) (c : ClientEntry)
    (hnd : (l.map (fun x => x.clientId)).Nodup) (hc : c ∈ l) :
    l.find? (fun x => x.clientId == c.clientId) = some c := by
  induction l with
  | nil => simp at hc
  | cons d rest ih =>
    rw [List.find?]
    rcases List.mem_cons.mp hc with heq | hmem
    · subst heq
      simp
    · have hd : (d.clientId == c.clientId) = false := by
        cases hx : (d.clientId == c.clientId)
        · rfl
        · have : d.clientId = c.clientId := beq_iff_eq.mp hx
          have hcid : c.clientId ∈ rest.map (fun x => x.clientId) :=
            List.mem_map.mpr ⟨c, hmem, rfl⟩
          rw [List.map_cons, List.nodup_cons] at hnd
          exact absurd (this ▸ hcid) hnd.1
      rw [hd]
      exact ih (by rw [List.map_cons, List.nodup_cons] at hnd; exact hnd.2) hmem

theorem listAllToolsGo_eq (st : MCPState)
    (hnd : (st.clientMap.map (fun x => x.clientId)).Nodup) :
    ∀ (cs : List ClientEntry), (∀ c ∈ cs, c ∈ st.clientMap) →
    ∀ (fm : List (String × String)) (acc : List MCPTool),
    listAllToolsGo st cs fm acc = .ok (acc ++ toolConcat cs, registerAll fm cs) := by
  intro cs
  induction cs with
  | nil => intro _ fm acc; simp [listAllToolsGo, toolConcat, registerAll]
  | cons c rest ih =>
    intro hmem fm acc
    have hc : c ∈ st.clientMap := hmem c (List.mem_cons_self c rest)
    have hlt : listTool st c.clientId = .ok c.toolsResult := by
      rw [listTool, find_self_of_nodup st.clientMap c hnd hc]
    simp only [listAllToolsGo, hlt]
    rw [ih (fun x hx => hmem x (List.mem_cons_of_mem c hx))]
    rw [toolConcat, registerAll]
    simp [List.append_assoc]

theorem startsWith7_eq_true {l : List Char} (h : startsWith7 l = true) :
    ∃ r, l = '[' :: 'B' :: 'R' :: 'E' :: 'A' :: 'K' :: ']' :: r := by
  rw [startsWith7.eq_def] at h
  split at h
  · rename_i r
    exact ⟨_, rfl⟩
  · exact absurd h (by simp)

theorem decodeChunk_sentinel (rest : List Char) :
    decodeChunk ('[' :: 'B' :: 'R' :: 'E' :: 'A' :: 'K' :: ']' :: rest)
      = '\n' :: decodeChunk rest := rfl

theorem decodeChunk_cons (c : Char) (rest : List Char)
    (h : startsWith7 (c :: rest) = false) :
    decodeChunk (c :: rest) = c :: decodeChunk rest := by
  rw [decodeChunk.eq_def]
  split
  · rename_i r heq
    rw [heq] at h
    simp [startsWith7] at h
  · rename_i x c2 rest2 hne heq
    injection heq with h1 h2
    rw [← h1, ← h2]
  · rename_i x heq
    simp at heq

theorem encode_eq_cons {t : List Char} {c : Char} {rest : List Char}
    (hc : c ≠ '[') (h : encodeChunk t = c :: rest) :
    ∃ t1, t = c :: t1 ∧ encodeChunk t1 = rest := by
  cases t with
  | nil => simp [encodeChunk] at h
  | cons d t1 =>
    by_cases hd : d = '\n'
    · subst hd
      rw [encodeChunk] at h
      simp [sentinel] at h
      exact absurd h.1.symm hc
    · rw [encodeChunk] at h
      simp only [if_neg hd, List.singleton_append, List.cons.injEq] at h
      exact ⟨t1, by rw [h.1], h.2⟩

theorem startsWith7_encode (c : Char) (t : List Char)
    (h : startsWith7 (c :: t) = false) :
    startsWith7 (c :: encodeChunk t) = false := by
  by_contra hb
  have htrue : startsWith7 (c :: encodeChunk t) = true := by
    revert hb
    cases startsWith7 (c :: encodeChunk t) <;> simp
  obtain ⟨r, hr⟩ := startsWith7_eq_true htrue
  injection hr with h1 h2
  subst h1
  obtain ⟨t1, ht1, he1⟩ := encode_eq_cons (by decide) h2
  obtain ⟨t2, ht2, he2⟩ := encode_eq_cons (by decide) he1
  obtain ⟨t3, ht3, he3⟩ := encode_eq_cons (by decide) he2
  obtain ⟨t4, ht4, he4⟩ := encode_eq_cons (by decide) he3
  obtain ⟨t5, ht5, he5⟩ := encode_eq_cons (by decide) he4
  obtain ⟨t6, ht6, he6⟩ := encode_eq_cons (by decide) he5
  subst ht1 ht2 ht3 ht4 ht5 ht6
  simp [startsWith7] at h

theorem decode_encode_of_no_sentinel :
    ∀ l : List Char, containsSentinel l = false →
      decodeChunk (encodeChunk l) = l := by
  intro l
  induction l with
  | nil => intro _; rfl
  | cons c t ih =>
    intro h
    rw [containsSentinel] at h
    have hsw : startsWith7 (c :: t) = false := by
      cases hx : startsWith7 (c :: t)
      · rfl
      · rw [hx] at h; simp at h
    have hct : containsSentinel t = false := by
      cases hx : containsSentinel t
      · rfl
      · rw [hx] at h; simp at h
    by_cases hc : c = '\n'
    · subst hc
      rw [encodeChunk, if_pos rfl]
      show decodeChunk ('[' :: 'B' :: 'R' :: 'E' :: 'A' :: 'K' :: ']' :: encodeChunk t)
        = '\n' :: t
      rw [decodeChunk_sentinel, ih hct]
    · rw [encodeChunk, if_neg hc, List.singleton_append]
      rw [decodeChunk_cons c _ (startsWith7_encode c t hsw), ih hct]

theorem newline_not_mem_encode (l : List Char) : '\n' ∉ encodeChunk l := by
  induction l with
  | nil => simp [encodeChunk]
  | cons c t ih =>
    rw [encodeChunk]
    by_cases hc : c = '\n'
    · subst hc
      rw [if_pos rfl]
      intro hmem
      rcases List.mem_append.mp hmem with hs | hr
      · exact absurd hs (by decide)
      · exact ih hr
    · rw [if_neg hc]
      intro hmem
      rcases List.mem_append.mp hmem with hs | hr
      · rw [List.mem_singleton] at hs
        exact hc hs.symm
      · exact ih hr

theorem extractToken_bearer (t : List Char) :
    extractToken (some ("Bearer ".data ++ t)) = t := by
  rw [extractToken]
  simp only [Option.getD_some]
  rw [if_pos (List.prefix_append _ _)]
  rfl

/-! ## Claim theorems -/

/-- C1: the claim states that a second `saveTokens` call cancels the timer
armed by an earlier call before arming its own. In the source,
`_setTokenRefreshTimer` overwrites `this._timer` without calling
`clearTimeout`, so after two `saveTokens` calls carrying expiry and
refresh token both timeouts are still pending in the runtime (ids 0 and
1), the stored handle names only the second, and even the abort-signal
cleanup `_clearRefreshTimer` removes only the second timer: the earlier
refresh still fires. -/
theorem saveTokens_leaves_earlier_timer_live :
    ((saveTokens (saveTokens ProviderState.init ⟨"a1", some 3600, some "r1"⟩)
      ⟨"a2", some 3600, some "r2"⟩).pendingTimers.map (fun t => t.id) = [0, 1]) ∧
    ((saveTokens (saveTokens ProviderState.init ⟨"a1", some 3600, some "r1"⟩)
      ⟨"a2", some 3600, some "r2"⟩)._timer = some 1) ∧
    ((clearRefreshTimer (saveTokens (saveTokens ProviderState.init
      ⟨"a1", some 3600, some "r1"⟩) ⟨"a2", some 3600, some "r2"⟩)).pendingTimers.map
      (fun t => t.id) = [0]) := by
  decide

/-- C2: with a table containing bearer token T, `POST /infer` with header
`Bearer T` and body `{"prompt":"hi"}` is accepted with status 200 and its
stream is the data frames of the engine chunks followed by the final
`data:[EOF]` frame; the same request with a token B that is not a key of
the table gets status 401 and no body frames. -/
theorem infer_bearer_auth_stream (table : List (List Char × Nat)) (T B : List Char)
    (uid : Nat) (hT : alist_lookup table T = some uid)
    (hB : alist_lookup table B = none) (chunks : List (List Char)) :
    (handleInfer table (some ("Bearer ".data ++ T)) (promptOnlyBody "hi".data)
        (.success chunks)).1
      = ⟨200, chunks.map frameOfChunk ++ [eofFrame], none⟩ ∧
    (handleInfer table (some ("Bearer ".data ++ T)) (promptOnlyBody "hi".data)
        (.success chunks)).2 = true ∧
    (handleInfer table (some ("Bearer ".data ++ B)) (promptOnlyBody "hi".data)
        (.success chunks)).1
      = ⟨401, [], some "Unauthorized".data⟩ := by
  refine ⟨?_, ?_, ?_⟩ <;>
    · simp only [handleInfer]
      rw [extractToken_bearer]
      first
      | (rw [hT]; try simp [validateInferRequest, promptOnlyBody, JsonVal.truthy])
      | (rw [hB]; try simp)

/-- Witness for C2 at the concrete table of the spec scenario: one user
with token T1, wrong token WRONG. -/
theorem infer_bearer_auth_stream_witness :
    (handleInfer [("T1".data, 0)] (some ("Bearer ".data ++ "T1".data))
        (promptOnlyBody "hi".data) (.success ["he".data])).1
      = ⟨200, ["he".data].map frameOfChunk ++ [eofFrame], none⟩ ∧
    (handleInfer [("T1".data, 0)] (some ("Bearer ".data ++ "T1".data))
        (promptOnlyBody "hi".data) (.success ["he".data])).2 = true ∧
    (handleInfer [("T1".data, 0)] (some ("Bearer ".data ++ "WRONG".data))
        (promptOnlyBody "hi".data) (.success ["he".data])).1
      = ⟨401, [], some "Unauthorized".data⟩ :=
  infer_bearer_auth_stream [("T1".data, 0)] "T1".data "WRONG".data 0
    (by decide) (by decide) ["he".data]

/-- C3 counterexample: the round-trip half of the claim is quantified over
every chunk, but a chunk that already contains the literal sentinel text
is not recovered: the chunk `[BREAK]` holds no newline, is transmitted
verbatim, and decodes to a newline instead of itself. -/
theorem sentinel_chunk_roundtrip_fails :
    decodeChunk (encodeChunk sentinel) = ['\n'] ∧
    decodeChunk (encodeChunk sentinel) ≠ sentinel := by
  decide

/-- C3 amended: every newline of a chunk is replaced by the sentinel
before framing (the transmitted frame chars contain no chunk newline), the
chunk containing a backslash-n between a and b is framed as
`data:a[BREAK]b`, and decoding recovers the original chunk for every
chunk that does not itself contain the sentinel as a substring. -/
theorem chunk_escape_roundtrip (l : List Char) (h : containsSentinel l = false) :
    ('\n' ∉ encodeChunk l) ∧
    decodeChunk (encodeChunk l) = l ∧
    frameOfChunk ['a', '\n', 'b'] = "data:a[BREAK]b".data ++ ['\n', '\n'] := by
  refine ⟨newline_not_mem_encode l, decode_encode_of_no_sentinel l h, ?_⟩
  decide

/-- Witness for C3 at the chunk of the spec scenario, a backslash-n
between a and b. -/
theorem chunk_escape_roundtrip_witness :
    ('\n' ∉ encodeChunk ['a', '\n', 'b']) ∧
    decodeChunk (encodeChunk ['a', '\n', 'b']) = ['a', '\n', 'b'] ∧
    frameOfChunk ['a', '\n', 'b'] = "data:a[BREAK]b".data ++ ['\n', '\n'] :=
  chunk_escape_roundtrip ['a', '\n', 'b'] (by decide)

/-- C4: `listAllTools()` concatenates the tool lists of the configured
sessions in configuration order, and the routing table it builds resolves
every tool name to the first session in configuration order that exposes
it; a later session exposing the same name is never bound (first wins,
nothing is overwritten). Stated for a fresh routing table and a client
map whose ids are distinct, which is the Map invariant of the source. -/
theorem listAllTools_concat_first_wins (st : MCPState)
    (hnd : (st.clientMap.map (fun x => x.clientId)).Nodup)
    (hfm : st.functionMap = []) (key : String) :
    listAllTools st
      = .ok (toolConcat st.clientMap,
             { st with functionMap := registerAll [] st.clientMap }) ∧
    alist_lookup (registerAll [] st.clientMap) key
      = ((st.clientMap.find? (fun c => c.toolsResult.any (fun t => t.name == key))).map
          (fun c => c.clientId)) := by
  constructor
  · rw [listAllTools, hfm,
      listAllToolsGo_eq st hnd st.clientMap (fun _ h => h) [] []]
    rfl
  · rw [registerAll_lookup]
    rfl

/-- Witness for C4 at two sessions both exposing a tool named x: the
routing table resolves x to the first session c1. -/
theorem listAllTools_concat_first_wins_witness :
    (listAllTools ⟨[⟨"c1", [⟨"x", "d1"⟩]⟩, ⟨"c2", [⟨"x", "d2"⟩]⟩], []⟩
      = .ok (toolConcat [⟨"c1", [⟨"x", "d1"⟩]⟩, ⟨"c2", [⟨"x", "d2"⟩]⟩],
             ⟨[⟨"c1", [⟨"x", "d1"⟩]⟩, ⟨"c2", [⟨"x", "d2"⟩]⟩],
              registerAll [] [⟨"c1", [⟨"x", "d1"⟩]⟩, ⟨"c2", [⟨"x", "d2"⟩]⟩]⟩)) ∧
    alist_lookup (registerAll [] [⟨"c1", [⟨"x", "d1"⟩]⟩, ⟨"c2", [⟨"x", "d2"⟩]⟩]) "x"
      = some "c1" := by
  have h := listAllTools_concat_first_wins
    ⟨[⟨"c1", [⟨"x", "d1"⟩]⟩, ⟨"c2", [⟨"x", "d2"⟩]⟩], []⟩ (by decide) rfl "x"
  exact ⟨h.1, by rw [h.2]; rfl⟩

/-- C5 counterexample: the claim states a second concurrent
`waitForAuthorizationCode()` call is rejected. In the source nothing
settles either promise when the second call arrives (the settled list is
still empty, so the second waiter, id 1, is pending rather than
rejected), and when the callback then delivers a code it is the second
waiter that is resolved with it. -/
theorem second_waiter_not_rejected :
    ((waitForAuthorizationCode (waitForAuthorizationCode CallbackState.init).2).2.settled
      = []) ∧
    ((waitForAuthorizationCode (waitForAuthorizationCode CallbackState.init).2).1 = 1) ∧
    ((handleCallback
        (waitForAuthorizationCode (waitForAuthorizationCode CallbackState.init).2).2
        (some "abc") none).2.settled = [(1, .resolved "abc")]) := by
  decide

/-- C5 amended: a second concurrent waiter is neither queued nor rejected:
it overwrites the single notifier slot, so when the callback fires with a
code only the most recent waiter is resolved and the earlier waiter is
abandoned, never settled at all. -/
theorem second_waiter_replaces_first (s : CallbackState) (c : String) (hc : c ≠ "")
    (hcode : s._code = none) (herr : s._callbackError = none)
    (hfresh : ∀ p ∈ s.settled, p.1 ≠ s.nextWaiter ∧ p.1 ≠ s.nextWaiter + 1) :
    ((waitForAuthorizationCode (waitForAuthorizationCode s).2).1
        = (waitForAuthorizationCode s).1 + 1) ∧
    ((waitForAuthorizationCode (waitForAuthorizationCode s).2).2._notify
        = some ((waitForAuthorizationCode s).1 + 1)) ∧
    ((handleCallback (waitForAuthorizationCode (waitForAuthorizationCode s).2).2
        (some c) none).2.settled
        = s.settled ++ [((waitForAuthorizationCode s).1 + 1, .resolved c)]) ∧
    (∀ o : WaiterOutcome,
      ((waitForAuthorizationCode s).1, o) ∉
        (handleCallback (waitForAuthorizationCode (waitForAuthorizationCode s).2).2
          (some c) none).2.settled) ∧
    ((handleCallback (waitForAuthorizationCode (waitForAuthorizationCode s).2).2
        (some c) none).1 = ⟨200, "Authorization successful"⟩) := by
  have hcb : (c != "") = true := by simpa using hc
  have hany : s.settled.any (fun p => p.1 == s.nextWaiter + 1) = false := by
    rw [List.any_eq_false]
    intro p hp
    simpa using (hfresh p hp).2
  have e1 : waitForAuthorizationCode s =
      (s.nextWaiter,
        { s with nextWaiter := s.nextWaiter + 1, _notify := some s.nextWaiter }) := by
    simp [waitForAuthorizationCode, truthyOptStr, hcode, herr]
  have e2 : waitForAuthorizationCode (waitForAuthorizationCode s).2 =
      (s.nextWaiter + 1,
        { s with nextWaiter := s.nextWaiter + 2,
                 _notify := some (s.nextWaiter + 1) }) := by
    rw [e1]
    simp [waitForAuthorizationCode, truthyOptStr, hcode, herr]
  have e3 : handleCallback (waitForAuthorizationCode (waitForAuthorizationCode s).2).2
      (some c) none =
      (⟨200, "Authorization successful"⟩,
        { s with nextWaiter := s.nextWaiter + 2, _notify := some (s.nextWaiter + 1),
                 _code := some c, _callbackError := none,
                 settled := s.settled ++ [(s.nextWaiter + 1, .resolved c)] }) := by
    rw [e2]
    simp [handleCallback, truthyOptStr, hcb, settle, hany]
  refine ⟨by rw [e2, e1], by rw [e2, e1], by rw [e3, e1], ?_, by rw [e3]⟩
  intro o
  rw [e3, e1]
  simp only [List.mem_append, List.mem_singleton, not_or]
  constructor
  · intro hmem
    exact (hfresh _ hmem).1 rfl
  · intro heq
    have : s.nextWaiter = s.nextWaiter + 1 := congrArg Prod.fst heq
    omega

/-- Witness for C5 on a fresh rendezvous and code abc. -/
theorem second_waiter_replaces_first_witness :
    ((waitForAuthorizationCode (waitForAuthorizationCode CallbackState.init).2).1
        = (waitForAuthorizationCode CallbackState.init).1 + 1) ∧
    ((waitForAuthorizationCode (waitForAuthorizationCode CallbackState.init).2).2._notify
        = some ((waitForAuthorizationCode CallbackState.init).1 + 1)) ∧
    ((handleCallback
        (waitForAuthorizationCode (waitForAuthorizationCode CallbackState.init).2).2
        (some "abc") none).2.settled
        = CallbackState.init.settled
            ++ [((waitForAuthorizationCode CallbackState.init).1 + 1, .resolved "abc")]) ∧
    (∀ o : WaiterOutcome,
      ((waitForAuthorizationCode CallbackState.init).1, o) ∉
        (handleCallback
          (waitForAuthorizationCode (waitForAuthorizationCode CallbackState.init).2).2
          (some "abc") none).2.settled) ∧
    ((handleCallback
        (waitForAuthorizationCode (waitForAuthorizationCode CallbackState.init).2).2
        (some "abc") none).1 = ⟨200, "Authorization successful"⟩) :=
  second_waiter_replaces_first CallbackState.init "abc" (by decide) rfl rfl
    (by intro p hp; simp [CallbackState.init] at hp)

/-- C6 counterexample: the claim states the armed delay is clamped to be
at least 0, so expires_in 5 would arm a delay of 0; the source computes
`expireIn - 10` with no clamp and arms the timeout with minus 5 seconds. -/
theorem refresh_delay_not_clamped :
    ((saveTokens ProviderState.init ⟨"at", some 5, some "r"⟩).pendingTimers.map
      (fun t => t.delaySeconds) = [-5]) ∧
    ((saveTokens ProviderState.init ⟨"at", some 5, some "r"⟩).pendingTimers.map
      (fun t => t.delaySeconds) ≠ [0]) := by
  decide

/-- C6 amended: when the saved tokens carry a truthy expiry e and a truthy
refresh token, a refresh timer is armed with delay e minus 10 seconds,
with no clamping: 3600 arms 3590, and an expiry below 10 arms a negative
delay, not 0. -/
theorem saveTokens_arms_unclamped_delay (st : ProviderState) (a : String) (e : Int)
    (r : String) (he : e ≠ 0) (hr : r ≠ "") :
    (saveTokens st ⟨a, some e, some r⟩).pendingTimers
      = st.pendingTimers ++ [⟨st.nextTimerId, e - 10, r⟩] := by
  simp [saveTokens, setTokenRefreshTimer, he, hr]

/-- Witness for C6 at the spec scenario expires_in 3600: the armed delay
is 3590 seconds. -/
theorem saveTokens_arms_unclamped_delay_witness :
    (saveTokens ProviderState.init ⟨"at", some 3600, some "r"⟩).pendingTimers
      = [⟨0, 3590, "r"⟩] :=
  saveTokens_arms_unclamped_delay ProviderState.init "at" 3600 "r"
    (by decide) (by decide)

/-- C7: `callTool` on a name absent from the routing table fails with an
error naming the tool, issues no protocol request against any session,
and leaves the whole client state (routing table included) unchanged,
for every argument record and every network behaviour. -/
theorem callTool_unknown_tool (st : MCPState)
    (net : ToolCallRequest → Except String CallToolResult)
    (toolName : String) (toolArgs : List String)
    (h : alist_lookup st.functionMap toolName = none) :
    callTool st net toolName toolArgs
      = (.error ("Tool " ++ toolName ++ " not found"), [], st) := by
  rw [callTool, h]

/-- Witness for C7 at the spec scenario, a missing tool with empty
arguments. -/
theorem callTool_unknown_tool_witness :
    callTool ⟨[], []⟩ (fun _ => .error "") "missing" []
      = (.error ("Tool " ++ "missing" ++ " not found"), [], ⟨[], []⟩) :=
  callTool_unknown_tool ⟨[], []⟩ (fun _ => .error "") "missing" [] rfl

/-- C8 counterexample: the claim states `codeVerifier()` returns exactly v
after `saveCodeVerifier(v)` for every v, but the source guards with a
truthiness test, so after saving the empty string the read still fails
with the missing-verifier error instead of returning the empty string. -/
theorem empty_verifier_reads_as_missing :
    codeVerifier (saveCodeVerifier ProviderState.init "")
      = .error "No code verifier saved" ∧
    codeVerifier (saveCodeVerifier ProviderState.init "") ≠ .ok "" := by
  refine ⟨rfl, ?_⟩
  simp [codeVerifier, saveCodeVerifier, ProviderState.init]

/-- C8 amended: `codeVerifier()` with nothing saved (the slot is unset)
always fails with the missing-verifier error; after `saveCodeVerifier(v)`
with v nonempty, `codeVerifier()` returns exactly v, and it still does
after an intervening `saveTokens`, which does not touch the slot. The
empty string is the one exception: a falsy saved verifier is
indistinguishable from an unset slot. -/
theorem codeVerifier_write_before_read (st st0 : ProviderState) (v : String)
    (tok : OAuthTokens) (hv : v ≠ "") (h0 : st0._codeVerifier = none) :
    codeVerifier st0 = .error "No code verifier saved" ∧
    codeVerifier (saveCodeVerifier st v) = .ok v ∧
    codeVerifier (saveTokens (saveCodeVerifier st v) tok) = .ok v := by
  refine ⟨?_, ?_, ?_⟩
  · simp [codeVerifier, h0]
  · simp [codeVerifier, saveCodeVerifier, hv]
  · rw [codeVerifier, saveTokens_keeps_codeVerifier]
    simp [saveCodeVerifier, hv]

/-- Witness for C8 at verifier ver on a fresh provider. -/
theorem codeVerifier_write_before_read_witness :
    codeVerifier ProviderState.init = .error "No code verifier saved" ∧
    codeVerifier (saveCodeVerifier ProviderState.init "ver") = .ok "ver" ∧
    codeVerifier (saveTokens (saveCodeVerifier ProviderState.init "ver")
      ⟨"at", some 3600, some "r"⟩) = .ok "ver" :=
  codeVerifier_write_before_read ProviderState.init ProviderState.init "ver"
    ⟨"at", some 3600, some "r"⟩ (by decide) rfl

/-- C9 counterexample: the claim quantifies over every temperature that is
not a number in the range 0 to 2, but the source guards the range check
with a truthiness test, so the falsy empty-string temperature (not a
number) bypasses validation: the request is accepted with status 200 and
the engine is invoked. -/
theorem falsy_temperature_skips_validation :
    ((handleInfer [("T1".data, 0)] (some ("Bearer ".data ++ "T1".data))
        { prompt := .str "x".data, temperature := .str [], stopText := .undef }
        (.success [])).2 = true) ∧
    ((handleInfer [("T1".data, 0)] (some ("Bearer ".data ++ "T1".data))
        { prompt := .str "x".data, temperature := .str [], stopText := .undef }
        (.success [])).1.status = 200) := by
  constructor <;> decide

/-- C9 amended: for every authenticated request whose prompt is truthy and
whose temperature is truthy but not a number in the range 0 to 2, the
gateway answers 400 with the temperature-range message, writes no frames,
and never invokes the engine; falsy temperature values (null, false, the
empty string, 0) bypass the range check instead. -/
theorem truthy_bad_temperature_rejected (table : List (List Char × Nat))
    (hdr : Option (List Char)) (uid : Nat) (body : InferBody) (engine : EngineOutcome)
    (hauth : alist_lookup table (extractToken hdr) = some uid)
    (hprompt : body.prompt.truthy = true)
    (htemp : body.temperature.truthy = true)
    (hrange : isNumInRange body.temperature = false) :
    handleInfer table hdr body engine
      = (⟨400, [], some "temperature must be a number between 0 and 2".data⟩, false) := by
  simp [handleInfer, hauth, validateInferRequest, hprompt, htemp, hrange]

/-- Witness for C9 at the spec scenario, temperature 5. -/
theorem truthy_bad_temperature_rejected_witness :
    handleInfer [("T1".data, 0)] (some ("Bearer ".data ++ "T1".data))
      { prompt := .str "x".data, temperature := .num 5, stopText := .undef }
      (.success ["he".data])
      = (⟨400, [], some "temperature must be a number between 0 and 2".data⟩, false) :=
  truthy_bad_temperature_rejected [("T1".data, 0)]
    (some ("Bearer ".data ++ "T1".data)) 0
    { prompt := .str "x".data, temperature := .num 5, stopText := .undef }
    (.success ["he".data])
    (by rw [extractToken_bearer]; decide) (by decide) (by decide) (by decide)

/-- C10: the auth middleware strips a leading Bearer prefix from the
Authorization header when present and otherwise uses the whole header
value (an absent header extracts to the empty token); a header equal to a
registered raw token with no Bearer prefix authenticates (the request is
not answered 401), and for every header the response status is 401
exactly when the extracted string is not a key of the token table. -/
theorem auth_token_extraction (table : List (List Char × Nat)) (h : List Char)
    (uid : Nat) (t : List Char)
    (hm : alist_lookup table h = some uid) (hp : ¬ ("Bearer ".data <+: h))
    (body : InferBody) (eng : EngineOutcome) :
    extractToken (some h) = h ∧
    extractToken (some ("Bearer ".data ++ t)) = t ∧
    extractToken none = [] ∧
    (handleInfer table (some h) body eng).1.status ≠ 401 ∧
    (∀ hdr, ((handleInfer table hdr body eng).1.status = 401 ↔
      alist_lookup table (extractToken hdr) = none)) := by
  have hext : extractToken (some h) = h := by
    rw [extractToken]
    simp only [Option.getD_some]
    rw [if_neg hp]
  refine ⟨hext, extractToken_bearer t, rfl, ?_, ?_⟩
  · simp only [handleInfer]
    rw [hext, hm]
    cases hv : validateInferRequest body
    · simp [hv]
    · cases eng <;> simp [hv]
  · intro hdr
    simp only [handleInfer]
    cases hl : alist_lookup table (extractToken hdr)
    · simp [hl]
    · cases hv : validateInferRequest body
      · simp [hv]
      · cases eng <;> simp [hv]

/-- Witness for C10 at a table holding token T1 and a request whose header
is the raw token T1 with no Bearer prefix. -/
theorem auth_token_extraction_witness :
    extractToken (some "T1".data) = "T1".data ∧
    extractToken (some ("Bearer ".data ++ "T1".data)) = "T1".data ∧
    extractToken none = [] ∧
    (handleInfer [("T1".data, 0)] (some "T1".data) (promptOnlyBody "hi".data)
      (.success [])).1.status ≠ 401 ∧
    (∀ hdr, ((handleInfer [("T1".data, 0)] hdr (promptOnlyBody "hi".data)
      (.success [])).1.status = 401 ↔
      alist_lookup [("T1".data, 0)] (extractToken hdr) = none)) :=
  auth_token_extraction [("T1".data, 0)] "T1".data 0 "T1".data
    (by decide) (by decide) (promptOnlyBody "hi".data) (.success [])
